import Mathlib

/-!
Shallow embedding of `src/vector.c` (library `mlib`, a growable sequence of
C `long` values with small-buffer optimization) together with proofs about
the claims of its specification.

Modelling conventions:
* C `long` is modelled as `Int` (64-bit range assumed only for the
  `LONG_MIN`/`LONG_MAX` sentinels, whose exact value never matters to the
  claims).
* C `size_t` values are modelled as `Nat`.  The source never relies on
  `size_t` wrap-around on the inputs covered by the claims; where the C code
  would underflow (`count - index` with `index > count`) the behaviour is
  undefined in C, and the `Nat` truncated subtraction of the model is one
  arbitrary refinement of that undefined behaviour.
* A heap allocation is modelled by the list of its cells; `malloc`d memory
  is modelled as zero-filled (its contents are unspecified in C and no claim
  depends on them).  `realloc` keeps the old prefix and zero-extends.
* A nullable pointer argument is an `Option`.  `errno` writes are modelled
  by an `Option Err` component of each result (`none` = errno untouched).
* `memmove`/`memcpy` are modelled by `memcopy`, a bulk splice that reads the
  source as a snapshot (exactly the guarantee of `memmove`).  Reads past the
  end of the source pad with zeros and writes past the end of the
  destination are dropped; both are undefined behaviour in C and never arise
  in the in-bounds situations the claims quantify over.
* Allocation success is an explicit `Bool` oracle parameter (`allocOk`)
  passed to every operation that may call `malloc`/`realloc`.
-/

namespace MVec

/-- `MC_VECTOR_BUFSIZE` from `vector.h`: the inline (stack) buffer size. -/
def MC_VECTOR_BUFSIZE : Nat := 10

/-- `LONG_MAX` for a 64-bit `long`. -/
def LONG_MAX : Int := 2 ^ 63 - 1

/-- `LONG_MIN` for a 64-bit `long`. -/
def LONG_MIN : Int := -(2 ^ 63)

/-- The `errno` values the source assigns. -/
inductive Err where
  | EFAULT
  | EINVAL
  | ENOMEM
  | ENOBUFS
deriving DecidableEq, Repr

/-- Model of `memmove(dst + di, src + si, n * sizeof(long))` (and of
`memcpy`, which the source only uses on non-overlapping ranges, where the
two agree): splice `n` cells read from the snapshot `src` at offset `si`
into `dst` at offset `di`.  Out-of-bounds reads pad with `0` and
out-of-bounds writes are clipped; both cases are undefined behaviour in C
and are never hit by the in-bounds statements proved below.  The result
always has the length of `dst`. -/
def memcopy (dst : List Int) (di : Nat) (src : List Int) (si : Nat) (n : Nat) : List Int :=
  dst.take di ++ (src.drop si ++ List.replicate n 0).take (min n (dst.length - di)) ++
    dst.drop (di + n)

/-- Model of `struct vector_s` (`src/vector.c:57-65`).
`dataIsHeap` models the predicate `data == heap_buf`; in every state
reachable by the single-vector API, `data` points to `stack_buf` exactly
when `heap_buf` is `NULL`. -/
structure CVec where
  count : Nat
  capacity : Nat
  stack_buf : List Int
  heap_buf : Option (List Int)
  dataIsHeap : Bool
deriving DecidableEq, Repr

/-- The buffer `data` points to. -/
def CVec.data (v : CVec) : List Int :=
  if v.dataIsHeap then v.heap_buf.getD [] else v.stack_buf

/-- Apply an in-place update to the buffer `data` points to. -/
def CVec.mapData (v : CVec) (f : List Int → List Int) : CVec :=
  if v.dataIsHeap then { v with heap_buf := some (f (v.heap_buf.getD [])) }
  else { v with stack_buf := f v.stack_buf }

/-- The observable element sequence: the `count` live cells of the active
buffer. -/
def CVec.liveList (v : CVec) : List Int := v.data.take v.count

/-- Well-formedness of the model state, true of every vector the API
constructs: the stack buffer has exactly `MC_VECTOR_BUFSIZE` cells; when the
heap buffer is active it has exactly `capacity` cells; when the stack buffer
is active there is no heap buffer and `capacity` fits in the stack buffer. -/
def WF (v : CVec) : Prop :=
  v.stack_buf.length = MC_VECTOR_BUFSIZE ∧
  (if v.dataIsHeap then (v.heap_buf.getD []).length = v.capacity ∧ v.heap_buf ≠ none
   else v.capacity ≤ MC_VECTOR_BUFSIZE ∧ v.heap_buf = none)

instance (v : CVec) : Decidable (WF v) := by
  unfold WF; infer_instance

/-- `mc_vector_make` (`src/vector.c:69-103`).  `allocOk` models the success
of the `malloc` calls (the struct allocation and, for large capacities, the
buffer allocation). -/
def mc_vector_make (allocOk : Bool) (capacity : Nat) : Option CVec × Option Err :=
  if capacity = 0 then (none, some .EINVAL)
  else if ¬ allocOk then (none, some .ENOBUFS)
  else if capacity > MC_VECTOR_BUFSIZE then
    (some { count := 0, capacity := capacity,
            stack_buf := List.replicate MC_VECTOR_BUFSIZE 0,
            heap_buf := some (List.replicate capacity 0),
            dataIsHeap := true }, none)
  else
    (some { count := 0, capacity := MC_VECTOR_BUFSIZE,
            stack_buf := List.replicate MC_VECTOR_BUFSIZE 0,
            heap_buf := none, dataIsHeap := false }, none)

/-- `mc_vector_make_filled` (`src/vector.c:105-124`). -/
def mc_vector_make_filled (allocOk : Bool) (capacity length : Nat) (value : Int) :
    Option CVec × Option Err :=
  if capacity = 0 ∨ length = 0 ∨ capacity < length then (none, some .EINVAL)
  else
    match mc_vector_make allocOk capacity with
    | (none, e) => (none, e)
    | (some res, _) =>
        let res := res.mapData (fun d => memcopy d 0 (List.replicate length value) 0 length)
        (some { res with count := length }, none)

/-- `mc_vector_clone` (`src/vector.c:126-143`). -/
def mc_vector_clone (allocOk : Bool) (vec : Option CVec) : Option CVec × Option Err :=
  match vec with
  | none => (none, some .EFAULT)
  | some v =>
      match mc_vector_make allocOk v.capacity with
      | (none, e) => (none, e)
      | (some res, _) =>
          let res := res.mapData (fun d => memcopy d 0 v.data 0 v.count)
          (some { res with capacity := v.capacity, count := v.count }, none)

/-- `mc_vector_from_array` (`src/vector.c:145-168`).  Note line 164: the
capacity reported by `mc_vector_make` is overwritten with `length * 2`,
even when that is below `MC_VECTOR_BUFSIZE`. -/
def mc_vector_from_array (allocOk : Bool) (src : Option (List Int)) (length : Nat) :
    Option CVec × Option Err :=
  match src with
  | none => (none, some .EFAULT)
  | some s =>
      if length = 0 then (none, some .EINVAL)
      else
        match mc_vector_make allocOk (length * 2) with
        | (none, e) => (none, e)
        | (some res, _) =>
            let res := res.mapData (fun d => memcopy d 0 s 0 length)
            (some { res with capacity := length * 2, count := length }, none)

/-- `mc_vector_extract` (`src/vector.c:185-201`).  The caller-supplied
output array is threaded through and returned updated. -/
def mc_vector_extract (vec : Option CVec) (buffer : Option (List Int))
    (index length : Nat) : Int × Option Err × Option (List Int) :=
  match vec, buffer with
  | none, _ => (0, some .EFAULT, buffer)
  | some _, none => (0, some .EFAULT, none)
  | some v, some buf =>
      if index ≥ v.count ∨ length = 0 ∨ index + length > v.count then
        (0, some .EINVAL, some buf)
      else
        ((length : Int), none, some (memcopy buf 0 v.data index length))

/-- Result of a call whose C original dereferences a possibly-NULL pointer
before any check: `crash` models the null dereference. -/
inductive NRes (α : Type) where
  | ok (a : α)
  | crash
deriving DecidableEq, Repr

/-- `mc_vector_to_array` (`src/vector.c:181-183`): evaluates `vec->count`
before `mc_vector_extract` can perform its null check, so a NULL `vec`
crashes instead of reaching the `EFAULT` path. -/
def mc_vector_to_array (vec : Option CVec) (buffer : Option (List Int)) :
    NRes (Int × Option Err × Option (List Int)) :=
  match vec with
  | none => .crash
  | some v => .ok (mc_vector_extract (some v) buffer 0 v.count)

/-- `mc_vector_get` (`src/vector.c:206-219`): bound-checked against
`capacity`, writes through the out pointer on success. -/
def mc_vector_get (vec : Option CVec) (index : Nat) (out : Option Int) :
    Int × Option Err × Option Int :=
  match vec, out with
  | none, _ => (0, some .EFAULT, out)
  | some _, none => (0, some .EFAULT, none)
  | some v, some o =>
      if index ≥ v.capacity then (0, some .EINVAL, some o)
      else (1, none, some (v.data.getD index 0))

/-- `mc_vector_get_unchecked` (`src/vector.c:221-227`). -/
def mc_vector_get_unchecked (vec : Option CVec) (index : Nat) : Int :=
  match vec with
  | none => LONG_MAX
  | some v => if index ≥ v.capacity then LONG_MAX else v.data.getD index 0

/-- `mc_vector_set` (`src/vector.c:229-242`). -/
def mc_vector_set (vec : Option CVec) (index : Nat) (value : Int) :
    Int × Option Err × Option CVec :=
  match vec with
  | none => (0, some .EFAULT, none)
  | some v =>
      if index ≥ v.count then (0, some .EINVAL, some v)
      else (1, none, some (v.mapData (fun d => d.set index value)))

/-- `mc_vector_size` (`src/vector.c:246-253`). -/
def mc_vector_size (vec : Option CVec) : Nat × Option Err :=
  match vec with
  | none => (0, some .EFAULT)
  | some v => (v.count, none)

/-- `mc_vector_capacity` (`src/vector.c:255-262`). -/
def mc_vector_capacity (vec : Option CVec) : Nat × Option Err :=
  match vec with
  | none => (0, some .EFAULT)
  | some v => (v.capacity, none)

/-- `mc_vector_empty` (`src/vector.c:264-271`). -/
def mc_vector_empty (vec : Option CVec) : Int × Option Err :=
  match vec with
  | none => (1, some .EFAULT)
  | some v => (if v.count = 0 then 1 else 0, none)

/-- `mc_vector_is_stack` (`src/vector.c:273-280`): returns
`vec->data != vec->heap_buf`. -/
def mc_vector_is_stack (vec : Option CVec) : Int × Option Err :=
  match vec with
  | none => (0, some .EFAULT)
  | some v => (if v.dataIsHeap then 0 else 1, none)

/-- `vec_ensure_capacity` (`src/vector.c:286-309`): grows to
`capacity * 2 + len` as soon as `count + len` would reach the current
capacity.  On a grow from the stack buffer the whole `capacity`-prefix of
the stack buffer is copied.  On `realloc` failure the vector is untouched
and `0` is returned. -/
def vec_ensure_capacity (allocOk : Bool) (v : CVec) (len : Nat) : Bool × CVec :=
  if v.count + len ≥ v.capacity then
    if allocOk then
      let cap := v.capacity * 2 + len
      let temp :=
        match v.heap_buf with
        | none => List.replicate cap 0
        | some l => l.take cap ++ List.replicate (cap - l.length) 0
      let temp := if v.heap_buf = none then memcopy temp 0 v.stack_buf 0 v.capacity else temp
      (true, { v with heap_buf := some temp, dataIsHeap := true, capacity := cap })
    else (false, v)
  else (true, v)

/-- `mc_vector_push` (`src/vector.c:312-325`). -/
def mc_vector_push (allocOk : Bool) (vec : Option CVec) (value : Int) :
    Int × Option Err × Option CVec :=
  match vec with
  | none => (0, some .EFAULT, none)
  | some v =>
      match vec_ensure_capacity allocOk v 1 with
      | (false, v) => (0, some .ENOMEM, some v)
      | (true, v) =>
          let v2 := v.mapData (fun d => d.set v.count value)
          (1, none, some { v2 with count := v.count + 1 })

/-- `mc_vector_pop` (`src/vector.c:327-340`). -/
def mc_vector_pop (vec : Option CVec) : Int × Option Err × Option CVec :=
  match vec with
  | none => (LONG_MIN, some .EFAULT, none)
  | some v =>
      if v.count = 0 then (LONG_MIN, some .ENOMEM, some v)
      else (v.data.getD (v.count - 1) 0, none, some { v with count := v.count - 1 })

/-- `mc_vector_insert` (`src/vector.c:344-369`).  At `index == count - 1`
the call degenerates to `mc_vector_push`, i.e. the value is appended after
the last live element rather than written at `index`. -/
def mc_vector_insert (allocOk : Bool) (vec : Option CVec) (index : Nat) (value : Int) :
    Int × Option Err × Option CVec :=
  match vec with
  | none => (0, some .EFAULT, none)
  | some v =>
      if index ≥ v.count then (0, some .EINVAL, some v)
      else
        match vec_ensure_capacity allocOk v 1 with
        | (false, v) => (0, some .ENOMEM, some v)
        | (true, v) =>
            if index = v.count - 1 then mc_vector_push allocOk (some v) value
            else
              let v2 := v.mapData (fun d =>
                (memcopy d (index + 1) d index (v.count - index)).set index value)
              (1, none, some { v2 with count := v.count + 1 })

/-- `mc_vector_inserts` (`src/vector.c:371-395`).  Bounds are checked
against `capacity`, not `count`; the right shift is skipped when
`index == count - 1`; the return value on success is `length`. -/
def mc_vector_inserts (allocOk : Bool) (vec : Option CVec) (index : Nat)
    (src : Option (List Int)) (length : Nat) : Int × Option Err × Option CVec :=
  match vec, src with
  | none, _ => (0, some .EFAULT, none)
  | some v, none => (0, some .EFAULT, some v)
  | some v, some s =>
      if index ≥ v.capacity ∨ length = 0 ∨ index + length ≥ v.capacity then
        (0, some .EINVAL, some v)
      else
        match vec_ensure_capacity allocOk v length with
        | (false, v) => (0, some .ENOMEM, some v)
        | (true, v) =>
            let v2 :=
              if index ≠ v.count - 1 then
                v.mapData (fun d => memcopy d (index + length) d index (v.count - index))
              else v
            let v3 := v2.mapData (fun d => memcopy d index s 0 length)
            ((length : Int), none, some { v3 with count := v.count + length })

/-- `mc_vector_remove` (`src/vector.c:400-418`).  At `index == count - 1`
the call degenerates to `mc_vector_pop` and the result is
`pop != LONG_MIN`. -/
def mc_vector_remove (vec : Option CVec) (index : Nat) : Int × Option Err × Option CVec :=
  match vec with
  | none => (0, some .EFAULT, none)
  | some v =>
      if index ≥ v.count then (0, some .EINVAL, some v)
      else if index = v.count - 1 then
        match mc_vector_pop (some v) with
        | (r, e, v2) => (if r ≠ LONG_MIN then 1 else 0, e, v2)
      else
        let v2 := v.mapData (fun d => memcopy d index d (index + 1) (v.count - index))
        (1, none, some { v2 with count := v.count - 1 })

/-- `mc_vector_erase` (`src/vector.c:420-436`). -/
def mc_vector_erase (vec : Option CVec) (index length : Nat) :
    Int × Option Err × Option CVec :=
  match vec with
  | none => (0, some .EFAULT, none)
  | some v =>
      if index ≥ v.count ∨ length = 0 ∨ index + length ≥ v.count then
        (0, some .EINVAL, some v)
      else
        let v2 := v.mapData (fun d =>
          memcopy d index d (index + length) (v.count - index - length))
        ((length : Int), none, some { v2 with count := v.count - length })

/-- `mc_vector_fill_range` (`src/vector.c:464-481`): an element-wise loop
writing `value` at positions `[index, index + length)`. -/
def mc_vector_fill_range (vec : Option CVec) (index length : Nat) (value : Int) :
    Int × Option Err × Option CVec :=
  match vec with
  | none => (0, some .EFAULT, none)
  | some v =>
      if index ≥ v.count ∨ length = 0 ∨ index + length > v.count then
        (0, some .EINVAL, some v)
      else
        let v2 := v.mapData (fun d =>
          (List.range length).foldl (fun acc k => acc.set (index + k) value) d)
        (1, none, some v2)

/-- `mc_vector_fill` (`src/vector.c:460-462`): passes `vec->count` to
`mc_vector_fill_range` before any null check, so a NULL `vec` crashes. -/
def mc_vector_fill (vec : Option CVec) (value : Int) :
    NRes (Int × Option Err × Option CVec) :=
  match vec with
  | none => .crash
  | some v => .ok (mc_vector_fill_range (some v) 0 v.count value)

/-- `mc_vector_resize` (`src/vector.c:489-545`).  Shrink branch
(`newSize ≤ MC_VECTOR_BUFSIZE`): copy `newSize` cells back into the stack
buffer, drop the heap buffer, force `capacity = MC_VECTOR_BUFSIZE` and
`count = newSize`.  Grow branch: reallocate/allocate the heap buffer to
exactly `newSize` cells; `count` untouched.  Note line 531: the
`malloc`-failure path of the grow branch sets `errno` to `EINVAL`, not
`ENOMEM`. -/
def mc_vector_resize (allocOk : Bool) (vec : Option CVec) (newSize : Nat) :
    Int × Option Err × Option CVec :=
  match vec with
  | none => (0, some .EFAULT, none)
  | some v =>
      if newSize = 0 then (0, some .EINVAL, some v)
      else if newSize ≤ MC_VECTOR_BUFSIZE then
        let v2 :=
          if v.dataIsHeap then
            { v with stack_buf := memcopy v.stack_buf 0 (v.heap_buf.getD []) 0 newSize,
                     heap_buf := none }
          else v
        (1, none, some { v2 with dataIsHeap := false, capacity := MC_VECTOR_BUFSIZE,
                                 count := newSize })
      else
        if v.dataIsHeap then
          if allocOk then
            let old := v.heap_buf.getD []
            let temp := old.take newSize ++ List.replicate (newSize - old.length) 0
            (1, none, some { v with heap_buf := some temp, dataIsHeap := true,
                                    capacity := newSize })
          else (0, some .ENOMEM, some v)
        else
          if allocOk then
            let temp := memcopy (List.replicate newSize 0) 0 v.stack_buf 0 v.count
            (1, none, some { v with heap_buf := some temp, dataIsHeap := true,
                                    capacity := newSize })
          else (0, some .EINVAL, some v)

/-- `mc_vector_shrink` (`src/vector.c:485-487`): passes `vec->count` to
`mc_vector_resize` before any null check, so a NULL `vec` crashes. -/
def mc_vector_shrink (allocOk : Bool) (vec : Option CVec) :
    NRes (Int × Option Err × Option CVec) :=
  match vec with
  | none => .crash
  | some v => .ok (mc_vector_resize allocOk (some v) v.count)

/-- `mc_vector_clear` (`src/vector.c:547-563`). -/
def mc_vector_clear (vec : Option CVec) : Int × Option Err × Option CVec :=
  match vec with
  | none => (0, some .EFAULT, none)
  | some v =>
      let v2 :=
        if v.dataIsHeap then
          { v with heap_buf := none, dataIsHeap := false, capacity := MC_VECTOR_BUFSIZE }
        else v
      (1, none, some { v2 with count := 0 })

end MVec

/-!
Two-container pointer model, needed for `mc_vector_swap`
(`src/vector.c:439-458`): the C function exchanges the `count`, `capacity`
and `data` fields of the two structs but leaves each struct's `stack_buf`
array and `heap_buf` pointer in place, so buffer identity and ownership
matter.  The world holds the two structs, their embedded stack arrays, and
the heap allocations, addressed by id.
-/

namespace PtrModel

/-- A pointer value that can sit in a `data` field: one of the two embedded
stack arrays, or a heap allocation. -/
inductive BufRef where
  | stack1
  | stack2
  | heapAlloc (id : Nat)
deriving DecidableEq, Repr

/-- A `struct vector_s` in the pointer model: `heap_buf` is a nullable
pointer to a heap allocation, `data` an arbitrary buffer pointer. -/
structure PVec where
  count : Nat
  capacity : Nat
  heap_buf : Option Nat
  data : BufRef
deriving DecidableEq, Repr

/-- The memory relevant to two vectors: their embedded stack arrays and the
heap allocations. -/
structure World where
  stack1 : List Int
  stack2 : List Int
  heaps : List (List Int)
  v1 : PVec
  v2 : PVec
deriving DecidableEq, Repr

/-- Dereference a buffer pointer. -/
def World.deref (w : World) (r : BufRef) : List Int :=
  match r with
  | .stack1 => w.stack1
  | .stack2 => w.stack2
  | .heapAlloc i => w.heaps.getD i []

/-- The observable element sequence of the first vector. -/
def World.seq1 (w : World) : List Int := (w.deref w.v1.data).take w.v1.count

/-- The observable element sequence of the second vector. -/
def World.seq2 (w : World) : List Int := (w.deref w.v2.data).take w.v2.count

/-- `vec->data != vec->heap_buf`, the test `mc_vector_is_stack` performs:
a stack pointer never equals a heap pointer, and no valid `data` pointer
equals `NULL`. -/
def PVec.is_stack (v : PVec) : Bool :=
  match v.data, v.heap_buf with
  | .heapAlloc i, some j => decide (i ≠ j)
  | _, _ => true

/-- `mc_vector_swap` (`src/vector.c:439-458`) on two non-null vectors:
exchanges `count`, `capacity` and `data` — and nothing else.  The embedded
`stack_buf` arrays cannot move and the `heap_buf` fields are not
exchanged. -/
def mc_vector_swap (w : World) : Int × Option MVec.Err × World :=
  (1, none,
   { w with
     v1 := { w.v1 with count := w.v2.count, capacity := w.v2.capacity, data := w.v2.data },
     v2 := { w.v2 with count := w.v1.count, capacity := w.v1.capacity, data := w.v1.data } })

/-- The buffers a vector's struct refers to (its own stack array, its
`heap_buf` allocation, and whatever `data` points at). -/
def refBufs (own : BufRef) (v : PVec) : List BufRef :=
  own :: v.data :: (match v.heap_buf with | none => [] | some i => [.heapAlloc i])

/-- Two vectors share storage when some buffer is referred to by both. -/
def sharesStorage (w : World) : Bool :=
  (refBufs .stack1 w.v1).any (fun b => (refBufs .stack2 w.v2).contains b)

/-- Null-checked entry point of `mc_vector_swap`: the null checks happen
before anything else (`src/vector.c:440-443`). -/
def swapChecked (v1null v2null : Bool) (w : World) : Int × Option MVec.Err × World :=
  if v1null ∨ v2null then (0, some .EFAULT, w) else mc_vector_swap w

end PtrModel

namespace MVec

/-- One call of the single-container mutating API, with its allocation
oracle and non-container arguments. -/
inductive VOp where
  | push (allocOk : Bool) (value : Int)
  | pop
  | insert (allocOk : Bool) (index : Nat) (value : Int)
  | inserts (allocOk : Bool) (index : Nat) (src : Option (List Int)) (length : Nat)
  | remove (index : Nat)
  | erase (index length : Nat)
  | setv (index : Nat) (value : Int)
  | fillRange (index length : Nat) (value : Int)
  | fillAll (value : Int)
  | resize (allocOk : Bool) (newSize : Nat)
  | shrinkOp (allocOk : Bool)
  | clear
deriving DecidableEq, Repr

/-- Run one API call on a (possibly NULL) container and keep the resulting
container.  A crash (NULL dereference) yields no container. -/
def applyOp (op : VOp) (vec : Option CVec) : Option CVec :=
  match op with
  | .push ok value => (mc_vector_push ok vec value).2.2
  | .pop => (mc_vector_pop vec).2.2
  | .insert ok index value => (mc_vector_insert ok vec index value).2.2
  | .inserts ok index src length => (mc_vector_inserts ok vec index src length).2.2
  | .remove index => (mc_vector_remove vec index).2.2
  | .erase index length => (mc_vector_erase vec index length).2.2
  | .setv index value => (mc_vector_set vec index value).2.2
  | .fillRange index length value => (mc_vector_fill_range vec index length value).2.2
  | .fillAll value =>
      match mc_vector_fill vec value with
      | .ok r => r.2.2
      | .crash => none
  | .resize ok newSize => (mc_vector_resize ok vec newSize).2.2
  | .shrinkOp ok =>
      match mc_vector_shrink ok vec with
      | .ok r => r.2.2
      | .crash => none
  | .clear => (mc_vector_clear vec).2.2

/-- Run a sequence of API calls. -/
def runOps (ops : List VOp) (vec : Option CVec) : Option CVec :=
  ops.foldl (fun s op => applyOp op s) vec

/-- The capacity floor `P1` claims: `capacity ≥ MC_VECTOR_BUFSIZE` for the
container if it exists. -/
def capFloor (vec : Option CVec) : Prop :=
  ∀ v ∈ vec, MC_VECTOR_BUFSIZE ≤ v.capacity

/-! Basic lemmas about the memory model. -/

theorem memcopy_length (dst src : List Int) (di si n : Nat) :
    (memcopy dst di src si n).length = dst.length := by
  simp only [memcopy, List.length_append, List.length_take, List.length_drop,
    List.length_replicate]
  omega

/-- In-bounds characterisation of `memcopy`: with source and destination
ranges inside the buffers it is the exact splice. -/
theorem memcopy_eq_of_le {dst src : List Int} {di si n : Nat}
    (h1 : di + n ≤ dst.length) (h2 : si + n ≤ src.length) :
    memcopy dst di src si n =
      dst.take di ++ (src.drop si).take n ++ dst.drop (di + n) := by
  have hmin : min n (dst.length - di) = n := by omega
  have hlen : n ≤ (src.drop si).length := by
    simp only [List.length_drop]; omega
  have htake : ((src.drop si ++ List.replicate n 0).take n) = (src.drop si).take n := by
    rw [List.take_append_eq_append_take]
    simp only [List.length_drop]
    have h0 : n - (src.length - si) = 0 := by omega
    simp [h0]
  rw [memcopy, hmin, htake]

theorem mapData_data (v : CVec) (f : List Int → List Int) :
    (v.mapData f).data = f v.data := by
  unfold CVec.mapData CVec.data
  split <;> simp_all

theorem mapData_count (v : CVec) (f : List Int → List Int) :
    (v.mapData f).count = v.count := by
  unfold CVec.mapData; split <;> rfl

theorem mapData_capacity (v : CVec) (f : List Int → List Int) :
    (v.mapData f).capacity = v.capacity := by
  unfold CVec.mapData; split <;> rfl

theorem mapData_dataIsHeap (v : CVec) (f : List Int → List Int) :
    (v.mapData f).dataIsHeap = v.dataIsHeap := by
  unfold CVec.mapData; split <;> rfl

theorem mapData_WF {v : CVec} {f : List Int → List Int} (hwf : WF v)
    (hf : (f v.data).length = v.data.length) : WF (v.mapData f) := by
  unfold WF at hwf ⊢
  unfold CVec.mapData
  unfold CVec.data at hf
  cases hih : v.dataIsHeap <;> simp [hih] at hwf hf ⊢
  · exact ⟨by rw [hf]; exact hwf.1, hwf.2⟩
  · exact ⟨hwf.1, by rw [hf]; exact hwf.2.1⟩

/-- A well-formed vector's active buffer covers its capacity. -/
theorem data_length_ge {v : CVec} (hwf : WF v) : v.capacity ≤ v.data.length := by
  unfold WF at hwf
  unfold CVec.data
  cases hih : v.dataIsHeap <;> simp [hih] at hwf ⊢ <;> omega

/-- A successful `vec_ensure_capacity` call preserves well-formedness and
the live prefix, never shrinks the capacity, and guarantees strict
headroom: afterwards `count + len < capacity`. -/
theorem ensure_success {ok : Bool} {v v' : CVec} {len : Nat}
    (h : vec_ensure_capacity ok v len = (true, v'))
    (hwf : WF v) (hc : v.count ≤ v.capacity) (hcap : 0 < v.capacity) :
    WF v' ∧ v'.count = v.count ∧ v.capacity ≤ v'.capacity ∧
      v'.count + len < v'.capacity ∧
      v'.data.take v.count = v.data.take v.count := by
  unfold vec_ensure_capacity at h
  split at h
  case isFalse hlt =>
    simp only [Prod.mk.injEq, true_and] at h
    subst h
    exact ⟨hwf, rfl, le_refl _, by omega, rfl⟩
  case isTrue hge =>
    split at h
    case isFalse hok => simp at h
    case isTrue hok =>
      obtain ⟨hstack, hrest⟩ := hwf
      cases hhb : v.heap_buf with
      | none =>
          have hih : v.dataIsHeap = false := by
            cases hih2 : v.dataIsHeap
            · rfl
            · simp [hih2, hhb] at hrest
          simp only [hih, Bool.false_eq_true, if_false] at hrest
          obtain ⟨hcap10, -⟩ := hrest
          rw [hhb] at h
          simp only [Prod.mk.injEq, true_and] at h
          simp at h
          subst h
          have hlen2 : (memcopy (List.replicate (v.capacity * 2 + len) 0) 0 v.stack_buf 0
              v.capacity).length = v.capacity * 2 + len := by
            rw [memcopy_length, List.length_replicate]
          refine ⟨?_, rfl, by simp; omega, by simp; omega, ?_⟩
          · unfold WF
            simp [hlen2, hstack]
          · have hco : memcopy (List.replicate (v.capacity * 2 + len) 0) 0 v.stack_buf 0
                v.capacity = v.stack_buf.take v.capacity ++
                  (List.replicate (v.capacity * 2 + len) (0 : Int)).drop v.capacity := by
              rw [memcopy_eq_of_le (by simp; omega) (by simp [hstack]; omega)]
              simp
            rw [CVec.data, CVec.data]
            simp only [hih, Bool.false_eq_true, if_false, if_pos rfl, if_true,
              eq_self_iff_true, Option.getD_some]
            rw [hco, List.take_append_eq_append_take]
            have hl1 : (v.stack_buf.take v.capacity).length = v.capacity := by
              rw [List.length_take]; omega
            rw [List.take_take, hl1]
            have h0 : v.count - v.capacity = 0 := by omega
            have hmin : min v.count v.capacity = v.count := by omega
            simp [h0, hmin]
      | some l =>
          have hih : v.dataIsHeap = true := by
            cases hih2 : v.dataIsHeap
            · simp [hih2, hhb] at hrest
            · rfl
          simp only [hih, if_pos rfl, hhb, Option.getD_some] at hrest
          obtain ⟨hlcap, -⟩ := hrest
          rw [hhb] at h
          simp only [Prod.mk.injEq, true_and] at h
          simp at h
          subst h
          have htake : l.take (v.capacity * 2 + len) = l := by
            apply List.take_of_length_le; omega
          refine ⟨?_, rfl, by simp; omega, by simp; omega, ?_⟩
          · unfold WF
            simp [htake, hlcap, hstack]
            omega
          · rw [CVec.data, CVec.data]
            simp only [hih, if_pos rfl, if_true, eq_self_iff_true, Option.getD_some]
            rw [htake, List.take_append_eq_append_take]
            have h0 : v.count - l.length = 0 := by omega
            simp [h0, hhb]

/-! Concrete vectors and scenario helpers used by the claim theorems. -/

/-- Iterated `mc_vector_push` with a successful allocator. -/
def pushN (n : Nat) (value : Int) (vec : Option CVec) : Option CVec :=
  (List.range n).foldl (fun s _ => (mc_vector_push true s value).2.2) vec

/-- The two-element vector `[1, 2]`, inline-backed, as built by two pushes. -/
def vec12 : CVec :=
  { count := 2, capacity := 10, stack_buf := [1, 2, 0, 0, 0, 0, 0, 0, 0, 0],
    heap_buf := none, dataIsHeap := false }

/-- The three-element vector `[1, 2, 3]`, inline-backed. -/
def vec123 : CVec :=
  { count := 3, capacity := 10, stack_buf := [1, 2, 3, 0, 0, 0, 0, 0, 0, 0],
    heap_buf := none, dataIsHeap := false }

/-- Claim C1, counterexample: starting from `mc_vector_make` with requested
capacity 5 (rounded up to 10), the TENTH successful push already triggers
the buffer transition (`vec_ensure_capacity` grows as soon as
`count + 1 ≥ capacity`, i.e. at `count = 9`), so after 10 pushes the
container is heap-backed (`is_stack` returns 0, not 1 as the claim states)
and the capacity is already 21. -/
theorem C1_counterexample :
    mc_vector_is_stack (pushN 10 7 (mc_vector_make true 5).1) = (0, none) ∧
      (pushN 10 7 (mc_vector_make true 5).1).map CVec.count = some 10 ∧
      (pushN 10 7 (mc_vector_make true 5).1).map CVec.capacity = some 21 := by
  decide

/-- Claim C1, amended: construction with requested capacity 5 reports
capacity 10; after NINE pushes the container is still inline with count 9;
the TENTH push performs the transition to the allocated buffer, yielding
capacity `10 * 2 + 1 = 21` and count 10; the eleventh push then gives
count 11 with capacity still 21. -/
theorem C1_amended :
    (mc_vector_make true 5).1.map CVec.capacity = some 10 ∧
      mc_vector_is_stack (pushN 9 7 (mc_vector_make true 5).1) = (1, none) ∧
      (pushN 9 7 (mc_vector_make true 5).1).map CVec.count = some 9 ∧
      mc_vector_is_stack (pushN 10 7 (mc_vector_make true 5).1) = (0, none) ∧
      (pushN 10 7 (mc_vector_make true 5).1).map (fun v => (v.count, v.capacity)) =
        some (10, 21) ∧
      (pushN 11 7 (mc_vector_make true 5).1).map (fun v => (v.count, v.capacity)) =
        some (11, 21) := by
  decide

/-- Claim C2, counterexample: `mc_vector_from_array` on a one-element array
produces capacity `1 * 2 = 2`, below the floor `MC_VECTOR_BUFSIZE = 10`:
line 164 of `vector.c` overwrites the capacity `mc_vector_make` had rounded
up to the floor. -/
theorem C2_counterexample :
    (mc_vector_from_array true (some [1]) 1).1.map CVec.capacity = some 2 ∧
      2 < MC_VECTOR_BUFSIZE := by
  decide

/-- Claim C3, counterexample: on the vector `[1, 2]`, `Insert(1, 99)` (a
valid index, `1 < count = 2`) degenerates to a push because `1 = count - 1`,
giving `[1, 2, 99]`; the subsequent `Remove(1)` yields `[1, 99]`, not the
original `[1, 2]`. -/
theorem C3_counterexample :
    (mc_vector_remove (mc_vector_insert true (some vec12) 1 99).2.2 1).2.2.map
        CVec.liveList = some [1, 99] ∧
      vec12.liveList = [1, 2] ∧ ([1, 99] : List Int) ≠ [1, 2] := by
  decide

/-- Claim C5, counterexample: on `[1, 2, 3]` with `index = 2 = count - 1`,
`length = 2`, `index + length = 4 < capacity = 10` (all the claim's
preconditions hold), `mc_vector_inserts` SKIPS the right shift
(`index != count - 1` fails), so the previously live element `3` is
overwritten: the result is `[1, 2, 8, 9, 0]` with count 5, not the
claimed `[1, 2, 8, 9, 3]`. -/
theorem C5_counterexample :
    mc_vector_inserts true (some vec123) 2 (some [8, 9]) 2 =
      (2, none,
        some (⟨5, 10, [1, 2, 8, 9, 0, 0, 0, 0, 0, 0], none, false⟩ : CVec)) ∧
      2 + 2 < vec123.capacity ∧
      ([1, 2, 8, 9, 0] : List Int) ≠
        vec123.liveList.take 2 ++ [8, 9] ++ vec123.liveList.drop 2 := by
  decide

/-- Claim C6: evaluation of the code at the failing input.  Growing the
inline-backed vector `[1, 2, 3]` with `mc_vector_resize(15)` while `malloc`
fails returns 0 and leaves the vector unchanged, but sets `errno` to
`EINVAL` (line 531 of `vector.c`), not the `ENOMEM` that the claim (and the
header's own documentation) require. -/
theorem C6_bug :
    mc_vector_resize false (some vec123) 15 = (0, some Err.EINVAL, some vec123) ∧
      Err.EINVAL ≠ Err.ENOMEM := by
  decide

/-- Claim C8, counterexample: `mc_vector_make_filled 12 12 7` yields a
heap-backed vector with `count = capacity = 12` holding twelve 7s;
`mc_vector_resize(11)` takes the grow branch (`11 > MC_VECTOR_BUFSIZE`),
reallocates the buffer to exactly 11 cells and leaves `count = 12`
untouched, so the live elements are NOT all preserved (the twelfth is gone)
and `count` now exceeds `capacity`. -/
theorem C8_counterexample :
    (mc_vector_make_filled true 12 12 7).1.map (fun v => (v.count, v.liveList)) =
      some (12, List.replicate 12 7) ∧
      (mc_vector_resize true (mc_vector_make_filled true 12 12 7).1 11).2.2.map
        (fun v => (v.count, v.capacity, v.liveList)) =
      some (12, 11, List.replicate 11 7) ∧
      MC_VECTOR_BUFSIZE < 11 ∧
      List.replicate 11 (7 : Int) ≠ List.replicate 12 7 := by
  decide

/-- Claim C9, counterexample to its parenthetical reachability statement:
`count = capacity` is also reachable WITHOUT the filled constructor and
WITHOUT the shrink branch of resize.  Starting from the plain constructor
`mc_vector_make 11` and pushing 11 values (count 11, capacity 23), the call
`mc_vector_resize 11` takes the grow branch (`11 > MC_VECTOR_BUFSIZE`) and
leaves `count = capacity = 11`. -/
theorem C9_counterexample :
    (mc_vector_resize true (pushN 11 5 (mc_vector_make true 11).1) 11).2.2.map
        (fun v => (v.count, v.capacity)) = some (11, 11) ∧
      MC_VECTOR_BUFSIZE < 11 := by
  decide

end MVec

namespace PtrModel

/-- A concrete world for the swap claim: `v1` is heap-backed, holding
`[5, 6]` in heap allocation 0 of 12 cells (as after `mc_vector_make 12` and
two pushes); `v2` is inline, holding `[7]` in its own embedded stack
buffer. -/
def w0 : World :=
  { stack1 := [0, 0, 0, 0, 0, 0, 0, 0, 0, 0],
    stack2 := [7, 0, 0, 0, 0, 0, 0, 0, 0, 0],
    heaps := [[5, 6, 0, 0, 0, 0, 0, 0, 0, 0, 0, 0]],
    v1 := { count := 2, capacity := 12, heap_buf := some 0, data := .heapAlloc 0 },
    v2 := { count := 1, capacity := 10, heap_buf := none, data := .stack2 } }

/-- Claim C4: evaluation of the code at the failing input.
`mc_vector_swap` exchanges `count`, `capacity` and `data` only, so on `w0`:
the two observable sequences do swap, BUT ownership of heap allocation 0 is
not exchanged (`v1.heap_buf` still owns it while `v2.data` now reads it);
the two containers share storage after the swap (`v1.data` points into
`v2`'s embedded stack buffer); and `v2`'s inline-vs-allocated status is
misreported: `v1` was heap-backed (`is_stack = false`) yet after receiving
`v1`'s state `v2.is_stack` returns true. -/
theorem C4_bug :
    (mc_vector_swap w0).2.2.seq1 = w0.seq2 ∧
      (mc_vector_swap w0).2.2.seq2 = w0.seq1 ∧
      (mc_vector_swap w0).2.2.v1.heap_buf = some 0 ∧
      (mc_vector_swap w0).2.2.v2.heap_buf = none ∧
      sharesStorage w0 = false ∧
      sharesStorage (mc_vector_swap w0).2.2 = true ∧
      w0.v1.is_stack = false ∧
      (mc_vector_swap w0).2.2.v2.is_stack = true := by
  decide

end PtrModel

namespace MVec

/-- Claim C10: `mc_vector_to_array`, `mc_vector_fill` and `mc_vector_shrink`
pass `vec->count` to their delegate before any null check, so a NULL
container crashes (null dereference) instead of being reported through the
`EFAULT`/NullReference channel; every other operation of the public
interface checks its container argument for NULL first and reports
`EFAULT` (or, for `mc_vector_get_unchecked`, its sentinel) without
crashing. -/
theorem C10_null_order :
    (∀ buffer, mc_vector_to_array none buffer = .crash) ∧
      (∀ value, mc_vector_fill none value = .crash) ∧
      (∀ ok, mc_vector_shrink ok none = .crash) ∧
      (∀ ok, mc_vector_clone ok none = (none, some .EFAULT)) ∧
      (∀ buffer index length, mc_vector_extract none buffer index length =
        (0, some .EFAULT, buffer)) ∧
      (∀ index out, mc_vector_get none index out = (0, some .EFAULT, out)) ∧
      (∀ index, mc_vector_get_unchecked none index = LONG_MAX) ∧
      (∀ index value, mc_vector_set none index value = (0, some .EFAULT, none)) ∧
      mc_vector_size none = (0, some .EFAULT) ∧
      mc_vector_capacity none = (0, some .EFAULT) ∧
      mc_vector_empty none = (1, some .EFAULT) ∧
      mc_vector_is_stack none = (0, some .EFAULT) ∧
      (∀ ok value, mc_vector_push ok none value = (0, some .EFAULT, none)) ∧
      mc_vector_pop none = (LONG_MIN, some .EFAULT, none) ∧
      (∀ ok index value, mc_vector_insert ok none index value =
        (0, some .EFAULT, none)) ∧
      (∀ ok index src length, mc_vector_inserts ok none index src length =
        (0, some .EFAULT, none)) ∧
      (∀ index, mc_vector_remove none index = (0, some .EFAULT, none)) ∧
      (∀ index length, mc_vector_erase none index length = (0, some .EFAULT, none)) ∧
      (∀ index length value, mc_vector_fill_range none index length value =
        (0, some .EFAULT, none)) ∧
      (∀ ok newSize, mc_vector_resize ok none newSize = (0, some .EFAULT, none)) ∧
      mc_vector_clear none = (0, some .EFAULT, none) ∧
      (∀ w, PtrModel.swapChecked true false w = (0, some .EFAULT, w)) ∧
      (∀ w, PtrModel.swapChecked false true w = (0, some .EFAULT, w)) := by
  exact ⟨fun _ => rfl, fun _ => rfl, fun _ => rfl, fun _ => rfl, fun _ _ _ => rfl,
    fun _ _ => rfl, fun _ => rfl, fun _ _ => rfl, rfl, rfl, rfl, rfl,
    fun _ _ => rfl, rfl, fun _ _ _ => rfl, fun _ _ _ _ => rfl, fun _ => rfl,
    fun _ _ => rfl, fun _ _ _ => rfl, fun _ _ => rfl, rfl,
    fun _ => rfl, fun _ => rfl⟩

/-! Capacity-floor preservation (claim C2). -/

theorem capFloor_none : capFloor none := by
  intro u hu
  simp at hu

theorem capFloor_some {v : CVec} (h : MC_VECTOR_BUFSIZE ≤ v.capacity) :
    capFloor (some v) := by
  intro u hu
  rw [Option.mem_def, Option.some_inj] at hu
  subst hu
  exact h

/-- `vec_ensure_capacity` never decreases the capacity. -/
theorem ensure_capacity_mono (ok : Bool) (v : CVec) (len : Nat) :
    v.capacity ≤ (vec_ensure_capacity ok v len).2.capacity := by
  unfold vec_ensure_capacity
  split
  · split
    · dsimp only; omega
    · dsimp only; omega
  · dsimp only; omega

theorem push_capFloor (ok : Bool) (value : Int) {v : CVec}
    (h : MC_VECTOR_BUFSIZE ≤ v.capacity) :
    capFloor (mc_vector_push ok (some v) value).2.2 := by
  unfold mc_vector_push
  dsimp only
  rcases he : vec_ensure_capacity ok v 1 with ⟨b, w⟩
  have hm := ensure_capacity_mono ok v 1
  rw [he] at hm
  dsimp only at hm
  cases b
  · dsimp only
    exact capFloor_some (by omega)
  · dsimp only
    refine capFloor_some ?_
    dsimp only
    rw [mapData_capacity]
    omega

theorem insert_capFloor (ok : Bool) (index : Nat) (value : Int) {v : CVec}
    (h : MC_VECTOR_BUFSIZE ≤ v.capacity) :
    capFloor (mc_vector_insert ok (some v) index value).2.2 := by
  unfold mc_vector_insert
  dsimp only
  split
  · exact capFloor_some h
  · rcases he : vec_ensure_capacity ok v 1 with ⟨b, w⟩
    have hm := ensure_capacity_mono ok v 1
    rw [he] at hm
    dsimp only at hm
    cases b
    · dsimp only
      exact capFloor_some (by omega)
    · dsimp only
      split
      · exact push_capFloor ok value (by omega)
      · dsimp only
        refine capFloor_some ?_
        dsimp only
        rw [mapData_capacity]
        omega

theorem inserts_capFloor (ok : Bool) (index : Nat) (src : Option (List Int))
    (length : Nat) {v : CVec} (h : MC_VECTOR_BUFSIZE ≤ v.capacity) :
    capFloor (mc_vector_inserts ok (some v) index src length).2.2 := by
  unfold mc_vector_inserts
  cases src with
  | none => exact capFloor_some h
  | some s =>
      dsimp only
      split
      · exact capFloor_some h
      · rcases he : vec_ensure_capacity ok v length with ⟨b, w⟩
        have hm := ensure_capacity_mono ok v length
        rw [he] at hm
        dsimp only at hm
        cases b
        · dsimp only
          exact capFloor_some (by omega)
        · dsimp only
          refine capFloor_some ?_
          dsimp only
          rw [mapData_capacity]
          split
          · rw [mapData_capacity]; omega
          · omega

theorem pop_capFloor {v : CVec} (h : MC_VECTOR_BUFSIZE ≤ v.capacity) :
    capFloor (mc_vector_pop (some v)).2.2 := by
  unfold mc_vector_pop
  dsimp only
  split
  · exact capFloor_some h
  · exact capFloor_some h

theorem remove_capFloor (index : Nat) {v : CVec}
    (h : MC_VECTOR_BUFSIZE ≤ v.capacity) :
    capFloor (mc_vector_remove (some v) index).2.2 := by
  unfold mc_vector_remove
  dsimp only
  split
  · exact capFloor_some h
  · split
    · rcases hp : mc_vector_pop (some v) with ⟨r, e, u⟩
      have hq := pop_capFloor h
      rw [hp] at hq
      dsimp only at hq
      dsimp only
      exact hq
    · dsimp only
      refine capFloor_some ?_
      dsimp only
      rw [mapData_capacity]
      omega

theorem erase_capFloor (index length : Nat) {v : CVec}
    (h : MC_VECTOR_BUFSIZE ≤ v.capacity) :
    capFloor (mc_vector_erase (some v) index length).2.2 := by
  unfold mc_vector_erase
  dsimp only
  split
  · exact capFloor_some h
  · dsimp only
    refine capFloor_some ?_
    dsimp only
    rw [mapData_capacity]
    omega

theorem set_capFloor (index : Nat) (value : Int) {v : CVec}
    (h : MC_VECTOR_BUFSIZE ≤ v.capacity) :
    capFloor (mc_vector_set (some v) index value).2.2 := by
  unfold mc_vector_set
  dsimp only
  split
  · exact capFloor_some h
  · refine capFloor_some ?_
    rw [mapData_capacity]
    omega

theorem fill_range_capFloor (index length : Nat) (value : Int) {v : CVec}
    (h : MC_VECTOR_BUFSIZE ≤ v.capacity) :
    capFloor (mc_vector_fill_range (some v) index length value).2.2 := by
  unfold mc_vector_fill_range
  dsimp only
  split
  · exact capFloor_some h
  · dsimp only
    refine capFloor_some ?_
    rw [mapData_capacity]
    omega

theorem resize_capFloor (ok : Bool) (newSize : Nat) {v : CVec}
    (h : MC_VECTOR_BUFSIZE ≤ v.capacity) :
    capFloor (mc_vector_resize ok (some v) newSize).2.2 := by
  unfold mc_vector_resize
  dsimp only
  split
  · exact capFloor_some h
  · split
    case isTrue hle =>
      split <;> exact capFloor_some (by dsimp only; omega)
    case isFalse hgt =>
      split
      · split
        · exact capFloor_some (by dsimp only; omega)
        · exact capFloor_some h
      · split
        · exact capFloor_some (by dsimp only; omega)
        · exact capFloor_some h

theorem clear_capFloor {v : CVec} (h : MC_VECTOR_BUFSIZE ≤ v.capacity) :
    capFloor (mc_vector_clear (some v)).2.2 := by
  unfold mc_vector_clear
  dsimp only
  split <;> exact capFloor_some (by dsimp only; omega)

/-- Every single-container operation applied to a NULL container yields a
NULL container. -/
theorem applyOp_none (op : VOp) : applyOp op none = none := by
  cases op <;> rfl

/-- Every single-container operation preserves the capacity floor. -/
theorem applyOp_capFloor (op : VOp) (s : Option CVec) (h : capFloor s) :
    capFloor (applyOp op s) := by
  cases s with
  | none => rw [applyOp_none]; exact capFloor_none
  | some v =>
      have hv : MC_VECTOR_BUFSIZE ≤ v.capacity := h v rfl
      cases op with
      | push ok value => exact push_capFloor ok value hv
      | pop => exact pop_capFloor hv
      | insert ok index value => exact insert_capFloor ok index value hv
      | inserts ok index src length => exact inserts_capFloor ok index src length hv
      | remove index => exact remove_capFloor index hv
      | erase index length => exact erase_capFloor index length hv
      | setv index value => exact set_capFloor index value hv
      | fillRange index length value => exact fill_range_capFloor index length value hv
      | fillAll value =>
          show capFloor (mc_vector_fill_range (some v) 0 v.count value).2.2
          exact fill_range_capFloor 0 v.count value hv
      | resize ok newSize => exact resize_capFloor ok newSize hv
      | shrinkOp ok =>
          show capFloor (mc_vector_resize ok (some v) v.count).2.2
          exact resize_capFloor ok v.count hv
      | clear => exact clear_capFloor hv

/-- The capacity floor is preserved by any sequence of operations. -/
theorem runOps_capFloor (ops : List VOp) (s : Option CVec) (h : capFloor s) :
    capFloor (runOps ops s) := by
  induction ops generalizing s with
  | nil => exact h
  | cons op rest ih => exact ih (applyOp op s) (applyOp_capFloor op s h)

theorem make_capFloor (ok : Bool) (c : Nat) : capFloor (mc_vector_make ok c).1 := by
  unfold mc_vector_make
  split
  · exact capFloor_none
  · split
    · exact capFloor_none
    · split
      case isTrue hgt =>
        dsimp only
        exact capFloor_some (by dsimp only; omega)
      case isFalse hle =>
        dsimp only
        exact capFloor_some (by dsimp only; omega)

theorem make_filled_capFloor (ok : Bool) (c len : Nat) (value : Int) :
    capFloor (mc_vector_make_filled ok c len value).1 := by
  unfold mc_vector_make_filled
  split
  · exact capFloor_none
  · rcases hm : mc_vector_make ok c with ⟨o, e⟩
    have hq := make_capFloor ok c
    rw [hm] at hq
    dsimp only at hq
    cases o with
    | none => exact capFloor_none
    | some res =>
        dsimp only
        refine capFloor_some ?_
        dsimp only
        rw [mapData_capacity]
        exact hq res rfl

theorem clone_capFloor (ok : Bool) {v : CVec} (h : MC_VECTOR_BUFSIZE ≤ v.capacity) :
    capFloor (mc_vector_clone ok (some v)).1 := by
  unfold mc_vector_clone
  dsimp only
  rcases hm : mc_vector_make ok v.capacity with ⟨o, e⟩
  cases o with
  | none => exact capFloor_none
  | some res =>
      dsimp only
      exact capFloor_some h

/-- Claim C2, amended: the capacity floor `capacity ≥ MC_VECTOR_BUFSIZE`
holds for every container produced by the empty-with-capacity or filled
constructor, or by cloning a container that satisfies the floor, and it is
preserved by any sequence of operations (including Clear and Shrink).  The
from-raw-array constructor is the exception the counterexample exhibits: it
yields capacity exactly `2 * length`, which satisfies the floor only when
`length ≥ 5`; for such lengths the floor is again preserved ever after. -/
theorem C2_amended :
    (∀ ok c ops, capFloor (runOps ops (mc_vector_make ok c).1)) ∧
      (∀ ok c len value ops, capFloor (runOps ops (mc_vector_make_filled ok c len value).1)) ∧
      (∀ ok ops (v : CVec), MC_VECTOR_BUFSIZE ≤ v.capacity →
        capFloor (runOps ops (mc_vector_clone ok (some v)).1)) ∧
      (∀ s length ops, 5 ≤ length →
        capFloor (runOps ops (mc_vector_from_array true (some s) length).1)) := by
  refine ⟨fun ok c ops => runOps_capFloor ops _ (make_capFloor ok c),
    fun ok c len value ops => runOps_capFloor ops _ (make_filled_capFloor ok c len value),
    fun ok ops v hv => runOps_capFloor ops _ (clone_capFloor ok hv),
    fun s length ops hlen => runOps_capFloor ops _ ?_⟩
  unfold mc_vector_from_array
  dsimp only
  split
  · exact capFloor_none
  · rcases hm : mc_vector_make true (length * 2) with ⟨o, e⟩
    cases o with
    | none => exact capFloor_none
    | some res =>
        dsimp only
        refine capFloor_some ?_
        show MC_VECTOR_BUFSIZE ≤ length * 2
        unfold MC_VECTOR_BUFSIZE
        omega

/-- Claim C2, witness: the floor holds concretely after `Clear` and
`Shrink` on a vector from the plain constructor, after a sequence on the
filled constructor, for a clone of `[1, 2, 3]`, and for a five-element
from-raw-array construction. -/
theorem C2_witness :
    capFloor (runOps [VOp.clear, VOp.shrinkOp true] (mc_vector_make true 5).1) ∧
      capFloor (runOps [VOp.pop, VOp.shrinkOp true] (mc_vector_make_filled true 12 12 7).1) ∧
      capFloor (runOps [] (mc_vector_clone true (some vec123)).1) ∧
      capFloor (runOps [VOp.clear] (mc_vector_from_array true (some [1, 2, 3, 4, 5]) 5).1) :=
  ⟨C2_amended.1 true 5 [VOp.clear, VOp.shrinkOp true],
   C2_amended.2.1 true 12 12 7 [VOp.pop, VOp.shrinkOp true],
   C2_amended.2.2.1 true [] vec123 (by decide),
   C2_amended.2.2.2 [1, 2, 3, 4, 5] 5 [VOp.clear] (by decide)⟩

/-! List and model helper lemmas for the functional-correctness claims. -/

/-- `vec_ensure_capacity` with a successful allocator always reports
success. -/
theorem ensure_true_fst (v : CVec) (len : Nat) :
    (vec_ensure_capacity true v len).1 = true := by
  unfold vec_ensure_capacity
  split <;> simp

theorem take_succ_set {l : List Int} {i : Nat} (h : i < l.length) (x : Int) :
    (l.take (i + 1)).set i x = l.take i ++ [x] := by
  rw [List.take_succ, List.set_append]
  have hlen : (l.take i).length = i := by rw [List.length_take]; omega
  rw [if_neg (by omega)]
  have hg : l[i]? = some l[i] := List.getElem?_eq_getElem h
  rw [hg]
  simp [hlen]

theorem take_add_drop_take (d : List Int) {i n : Nat} (h : i ≤ n) :
    d.take i ++ (d.drop i).take (n - i) = d.take n := by
  have h1 : (d.take n).take i = d.take i := by
    rw [List.take_take]
    congr 1
    omega
  have h2 : (d.take n).drop i = (d.drop i).take (n - i) := List.drop_take n i d
  rw [← h1, ← h2, List.take_append_drop]

theorem memcopy_take_all {dst src : List Int} {si n : Nat}
    (h1 : n ≤ dst.length) (h2 : si + n ≤ src.length) :
    (memcopy dst 0 src si n).take n = (src.drop si).take n := by
  rw [memcopy_eq_of_le (by omega) h2]
  simp only [List.take_zero, List.nil_append, Nat.zero_add]
  rw [List.take_append_eq_append_take, List.take_take]
  have hl : ((src.drop si).take n).length = n := by
    simp only [List.length_take, List.length_drop]
    omega
  simp [hl]

theorem memcopy_full {dst src : List Int} {si n : Nat}
    (h1 : dst.length = n) (h2 : si + n ≤ src.length) :
    memcopy dst 0 src si n = (src.drop si).take n := by
  rw [memcopy_eq_of_le (by omega) h2]
  have hd : dst.drop (0 + n) = [] := List.drop_eq_nil_of_le (by omega)
  rw [hd]
  simp

/-- `CVec.data` ignores the `count` and `capacity` fields. -/
theorem data_update (X : CVec) (c k : Nat) :
    ({ X with count := c, capacity := k } : CVec).data = X.data := rfl

theorem data_update_count (X : CVec) (c : Nat) :
    ({ X with count := c } : CVec).data = X.data := rfl

/-- A successful `mc_vector_make` call: the result is empty, well-formed,
and its reported capacity and buffer size are the requested capacity
rounded up to the inline floor. -/
theorem make_ok {c : Nat} (hc : 0 < c) :
    ∃ v : CVec, mc_vector_make true c = (some v, none) ∧ v.count = 0 ∧
      v.capacity = max c MC_VECTOR_BUFSIZE ∧ WF v ∧
      v.data.length = max c MC_VECTOR_BUFSIZE := by
  unfold mc_vector_make
  rw [if_neg (by omega), if_neg (by simp)]
  by_cases hbig : c > MC_VECTOR_BUFSIZE
  · rw [if_pos hbig]
    refine ⟨_, rfl, rfl, by dsimp only; omega, ?_, ?_⟩
    · unfold WF
      simp
    · unfold CVec.data
      simp
      omega
  · rw [if_neg hbig]
    refine ⟨_, rfl, rfl, by dsimp only; omega, ?_, ?_⟩
    · unfold WF
      simp
    · unfold CVec.data
      simp
      omega

/-- Claim C7: `FromRawArray(source, length)` for a non-null source holding
at least `length` elements and `length > 0` (with a successful allocator)
builds a container of capacity exactly `2 * length` and count `length`,
whose live content is the first `length` source elements; `ToArray` copies
exactly those elements out.  Instantiated at `[1, 2, 3]` (see the witness)
this is Scenario B: count 3, capacity 6, ToArray gives `[1, 2, 3]`. -/
theorem C7_from_array (s : List Int) (length : Nat) (h0 : 0 < length)
    (hs : length ≤ s.length) :
    ∃ v : CVec, mc_vector_from_array true (some s) length = (some v, none) ∧
      v.capacity = 2 * length ∧ v.count = length ∧ v.liveList = s.take length ∧
      mc_vector_to_array (some v) (some (List.replicate length 0)) =
        NRes.ok ((length : Int), none, some (s.take length)) := by
  obtain ⟨m, hm, hmc, hmcap, hmwf, hmdl⟩ := make_ok (show 0 < length * 2 by omega)
  have hdl2 : (m.mapData fun d => memcopy d 0 s 0 length).data.length = m.data.length := by
    rw [mapData_data, memcopy_length]
  have hlive : (m.mapData fun d => memcopy d 0 s 0 length).data.take length =
      s.take length := by
    rw [mapData_data, memcopy_take_all (by omega) (by omega)]
    simp
  unfold mc_vector_from_array
  dsimp only
  rw [if_neg (by omega), hm]
  dsimp only
  refine ⟨_, rfl, by dsimp only; omega, rfl, ?_, ?_⟩
  · show ((m.mapData fun d => memcopy d 0 s 0 length).data).take length = s.take length
    exact hlive
  · unfold mc_vector_to_array mc_vector_extract
    dsimp only
    rw [if_neg (by omega)]
    have hful : memcopy (List.replicate length (0 : Int)) 0
        (m.mapData fun d => memcopy d 0 s 0 length).data 0 length = s.take length := by
      rw [memcopy_full (by simp) (by rw [hdl2]; omega)]
      simp only [List.drop_zero]
      exact hlive
    show NRes.ok ((length : Int), none, some (memcopy (List.replicate length 0) 0
        (m.mapData fun d => memcopy d 0 s 0 length).data 0 length)) =
      NRes.ok ((length : Int), none, some (s.take length))
    rw [hful]

/-- Claim C7, witness (Scenario B): `FromRawArray([1, 2, 3], 3)` yields
count 3, capacity 6, and `ToArray` returns `[1, 2, 3]`. -/
theorem C7_witness :
    ∃ v : CVec, mc_vector_from_array true (some [1, 2, 3]) 3 = (some v, none) ∧
      v.capacity = 2 * 3 ∧ v.count = 3 ∧ v.liveList = [1, 2, 3].take 3 ∧
      mc_vector_to_array (some v) (some (List.replicate 3 0)) =
        NRes.ok ((3 : Int), none, some ([1, 2, 3].take 3)) :=
  C7_from_array [1, 2, 3] 3 (by decide) (by decide)

/-- The list-level heart of the insert/remove round trip: shifting
`[i, n)` one slot right, writing `x` at `i`, then shifting `[i+1, n+1)`
back left restores the first `n` cells.  Requires `i + 1 < n` (the
non-degenerate insert) and a buffer strictly longer than `n + 1` (the
headroom `vec_ensure_capacity` establishes). -/
theorem insert_remove_round {d : List Int} {i n : Nat} (x : Int)
    (hin : i + 1 < n) (hlen : n + 1 < d.length) :
    (memcopy ((memcopy d (i + 1) d i (n - i)).set i x) i
        ((memcopy d (i + 1) d i (n - i)).set i x) (i + 1) (n + 1 - i)).take n =
      d.take n := by
  have hdl : i + 1 + (n - i) = n + 1 := by omega
  have hA0 : (d.take i).length = i := by rw [List.length_take]; omega
  have hX : ((d.take i ++ [x]) : List Int).length = i + 1 := by
    simp only [List.length_append, List.length_cons, List.length_nil, hA0]
  have hB : ((d.drop i).take (n - i)).length = n - i := by
    simp only [List.length_take, List.length_drop]
    omega
  have hD : (memcopy d (i + 1) d i (n - i)).set i x =
      d.take i ++ [x] ++ ((d.drop i).take (n - i) ++ d.drop (n + 1)) := by
    rw [memcopy_eq_of_le (by omega) (by omega), hdl]
    rw [List.set_append, if_pos (by
      simp only [List.length_append, List.length_take]
      omega)]
    rw [List.set_append, if_pos (by
      simp only [List.length_take]
      omega)]
    rw [take_succ_set (by omega) x]
    rw [List.append_assoc]
  rw [hD]
  have hXfull : ((d.take i ++ [x] ++ ((d.drop i).take (n - i) ++ d.drop (n + 1))) :
      List Int).length = d.length := by
    simp only [List.length_append, List.length_take, List.length_drop,
      List.length_cons, List.length_nil]
    omega
  rw [memcopy_eq_of_le (by rw [hXfull]; omega) (by rw [hXfull]; omega)]
  have hidx : i + (n + 1 - i) = n + 1 := by omega
  rw [hidx]
  have hEtake : (d.take i ++ [x] ++ ((d.drop i).take (n - i) ++ d.drop (n + 1))).take i
      = d.take i := by
    rw [List.take_append_eq_append_take, hX]
    rw [List.take_append_eq_append_take, hA0]
    rw [List.take_take]
    simp only [show min i i = i from by omega, show i - i = 0 from by omega,
      show i - (i + 1) = 0 from by omega, List.take_zero, List.append_nil]
  have hEdrop : (d.take i ++ [x] ++ ((d.drop i).take (n - i) ++ d.drop (n + 1))).drop
      (i + 1) = (d.drop i).take (n - i) ++ d.drop (n + 1) :=
    List.drop_left' hX
  rw [hEtake, hEdrop]
  have hmid : ((d.drop i).take (n - i) ++ d.drop (n + 1)).take (n + 1 - i) =
      (d.drop i).take (n - i) ++ (d.drop (n + 1)).take 1 := by
    have hble : ((d.drop i).take (n - i)).length ≤ n + 1 - i := by
      rw [hB]; omega
    rw [List.take_append_eq_append_take, hB, List.take_of_length_le hble]
    have h1 : n + 1 - i - (n - i) = 1 := by omega
    rw [h1]
  rw [hmid]
  rw [List.take_append_eq_append_take]
  have hlen3 : ((d.take i ++ ((d.drop i).take (n - i) ++ (d.drop (n + 1)).take 1)) :
      List Int).length = n + 1 := by
    simp only [List.length_append, List.length_take, List.length_drop]
    omega
  rw [hlen3]
  simp only [show n - (n + 1) = 0 from by omega, List.take_zero, List.append_nil]
  rw [List.take_append_eq_append_take, hA0, List.take_take,
    show min n i = i from by omega]
  have hBT : ((d.drop i).take (n - i) ++ (d.drop (n + 1)).take 1).take (n - i) =
      (d.drop i).take (n - i) := by
    have hble2 : ((d.drop i).take (n - i)).length ≤ n - i := by
      rw [hB]
    rw [List.take_append_eq_append_take, hB, List.take_of_length_le hble2]
    simp only [show n - i - (n - i) = 0 from by omega, List.take_zero,
      List.append_nil]
  rw [hBT]
  exact take_add_drop_take d (by omega)

theorem liveList_update_count (X : CVec) (c : Nat) :
    ({ X with count := c } : CVec).liveList = X.data.take c := rfl

theorem count_update_count (X : CVec) (c : Nat) :
    ({ X with count := c } : CVec).count = c := rfl

/-- Claim C3, amended: for a well-formed container, a successful allocator
and a valid index with `index + 1 < count` — i.e. any valid index short of
the last live position, where the counterexample shows `mc_vector_insert`
degenerates to a push and the round trip instead replaces the last element
— `Insert(index, value)` followed by `Remove(index)` restores the original
observable sequence and the original count. -/
theorem C3_amended {v : CVec} {i : Nat} (value : Int)
    (hwf : WF v) (hc : v.count ≤ v.capacity) (hcap : 0 < v.capacity)
    (hi : i + 1 < v.count) :
    ∃ v1 v2 : CVec,
      mc_vector_insert true (some v) i value = (1, none, some v1) ∧
        mc_vector_remove (some v1) i = (1, none, some v2) ∧
        v2.liveList = v.liveList ∧ v2.count = v.count := by
  rcases he : vec_ensure_capacity true v 1 with ⟨b, w⟩
  have hb := ensure_true_fst v 1
  rw [he] at hb
  dsimp only at hb
  subst hb
  obtain ⟨hwf2, hcnt, hcapm, hroom, hpre⟩ := ensure_success he hwf hc hcap
  have hdlen : w.count + 1 < w.data.length := by
    have := data_length_ge hwf2
    omega
  have hins : mc_vector_insert true (some v) i value =
      (1, none, some ({ w.mapData
          (fun d => (memcopy d (i + 1) d i (w.count - i)).set i value) with
        count := w.count + 1 } : CVec)) := by
    unfold mc_vector_insert
    dsimp only
    rw [if_neg (by omega), he]
    dsimp only
    rw [if_neg (by omega)]
  have hrem : mc_vector_remove (some ({ w.mapData
        (fun d => (memcopy d (i + 1) d i (w.count - i)).set i value) with
      count := w.count + 1 } : CVec)) i =
      (1, none, some ({ ({ w.mapData
          (fun d => (memcopy d (i + 1) d i (w.count - i)).set i value) with
        count := w.count + 1 } : CVec).mapData
          (fun d2 => memcopy d2 i d2 (i + 1) (w.count + 1 - i)) with
        count := w.count + 1 - 1 } : CVec)) := by
    unfold mc_vector_remove
    dsimp only
    rw [if_neg (by omega), if_neg (by omega)]
  refine ⟨_, _, hins, hrem, ?_, ?_⟩
  · rw [liveList_update_count, mapData_data, data_update_count, mapData_data]
    rw [Nat.add_sub_cancel]
    rw [insert_remove_round value (by omega) hdlen]
    rw [hcnt]
    exact hpre
  · rw [count_update_count]
    omega

/-- Claim C3, witness: on the vector `[1, 2, 3]` with index 1 and value 50,
`Insert(1, 50)` then `Remove(1)` restores `[1, 2, 3]` and count 3. -/
theorem C3_witness :
    ∃ v1 v2 : CVec,
      mc_vector_insert true (some vec123) 1 50 = (1, none, some v1) ∧
        mc_vector_remove (some v1) 1 = (1, none, some v2) ∧
        v2.liveList = vec123.liveList ∧ v2.count = vec123.count :=
  C3_amended 50 (by decide) (by decide) (by decide) (by decide)

/-- The list-level content of a bulk insert strictly inside the live
region: shift `[i, n)` right by `L`, then copy `L` cells of `s` into the
gap; the first `n + L` cells are then precisely
`prefix ++ inserted ++ shifted tail`. -/
theorem inserts_shift_copy {d s : List Int} {i n L : Nat}
    (hin : i ≤ n) (hsl : L ≤ s.length) (hlen : n + L ≤ d.length) :
    (memcopy (memcopy d (i + L) d i (n - i)) i s 0 L).take (n + L) =
      (d.take n).take i ++ s.take L ++ (d.take n).drop i := by
  have hidx : i + L + (n - i) = n + L := by omega
  have hS : memcopy d (i + L) d i (n - i) =
      d.take (i + L) ++ (d.drop i).take (n - i) ++ d.drop (n + L) := by
    rw [memcopy_eq_of_le (by omega) (by omega), hidx]
  rw [hS]
  have hAl : (d.take (i + L)).length = i + L := by rw [List.length_take]; omega
  have hBl : ((d.drop i).take (n - i)).length = n - i := by
    simp only [List.length_take, List.length_drop]
    omega
  have hABl : ((d.take (i + L) ++ (d.drop i).take (n - i)) : List Int).length
      = n + L := by
    simp only [List.length_append, hAl, hBl]
    omega
  have hSl : (d.take (i + L) ++ (d.drop i).take (n - i) ++ d.drop (n + L)).length
      = d.length := by
    simp only [List.length_append, List.length_take, List.length_drop]
    omega
  rw [memcopy_eq_of_le (by rw [hSl]; omega) (by omega)]
  have hSt : (d.take (i + L) ++ (d.drop i).take (n - i) ++ d.drop (n + L)).take i
      = d.take i := by
    rw [List.take_append_eq_append_take, List.take_append_eq_append_take, hAl,
      List.take_take, show min i (i + L) = i from by omega, hABl]
    simp only [show i - (i + L) = 0 from by omega, show i - (n + L) = 0 from by omega,
      List.take_zero, List.append_nil]
  have hAd : (d.take (i + L)).drop (i + L) = [] :=
    List.drop_eq_nil_of_le (by simp only [hAl]; omega)
  have hSd : (d.take (i + L) ++ (d.drop i).take (n - i) ++ d.drop (n + L)).drop (i + L)
      = (d.drop i).take (n - i) ++ d.drop (n + L) := by
    rw [List.drop_append_eq_append_drop, List.drop_append_eq_append_drop, hAl, hABl,
      hAd]
    simp only [show i + L - (i + L) = 0 from by omega,
      show i + L - (n + L) = 0 from by omega, List.drop_zero, List.nil_append]
  rw [hSt, hSd, List.drop_zero]
  rw [List.take_append_eq_append_take]
  have hXl : ((d.take i ++ s.take L) : List Int).length = i + L := by
    simp only [List.length_append, List.length_take]
    omega
  have hxle : ((d.take i ++ s.take L) : List Int).length ≤ n + L := by
    rw [hXl]; omega
  rw [hXl, List.take_of_length_le hxle]
  rw [show n + L - (i + L) = n - i from by omega]
  have hbble : ((d.drop i).take (n - i)).length ≤ n - i := by
    rw [hBl]
  rw [List.take_append_eq_append_take, hBl, List.take_of_length_le hbble]
  simp only [show n - i - (n - i) = 0 from by omega, List.take_zero, List.append_nil]
  rw [List.take_take, show min i n = i from by omega, List.drop_take]

/-- Claim C5, amended: under the claim's preconditions
(`index + length < capacity`, `length > 0`, non-null source) and the extra
condition `index + 1 < count` — the counterexample shows the claim fails at
`index = count - 1`, where the shift is skipped and the last live element
is lost — `InsertMany` grows capacity as needed, shifts the tail right by
`length`, copies the `length` source elements into the gap preserving all
previously live elements, adds `length` to the count, and returns
`length`. -/
theorem C5_amended {v : CVec} {i length : Nat} {s : List Int}
    (hwf : WF v) (hc : v.count ≤ v.capacity) (hcap : 0 < v.capacity)
    (hb1 : i + length < v.capacity) (hl : 0 < length) (hsl : length ≤ s.length)
    (hi : i + 1 < v.count) :
    ∃ v1 : CVec,
      mc_vector_inserts true (some v) i (some s) length =
        ((length : Int), none, some v1) ∧
        v1.count = v.count + length ∧
        v1.liveList = v.liveList.take i ++ s.take length ++ v.liveList.drop i := by
  rcases he : vec_ensure_capacity true v length with ⟨b, w⟩
  have hb := ensure_true_fst v length
  rw [he] at hb
  dsimp only at hb
  subst hb
  obtain ⟨hwf2, hcnt, hcapm, hroom, hpre⟩ := ensure_success he hwf hc hcap
  have hdlen : w.count + length < w.data.length := by
    have := data_length_ge hwf2
    omega
  have hins : mc_vector_inserts true (some v) i (some s) length =
      ((length : Int), none, some ({ (w.mapData
          (fun d => memcopy d (i + length) d i (w.count - i))).mapData
          (fun d => memcopy d i s 0 length) with
        count := w.count + length } : CVec)) := by
    unfold mc_vector_inserts
    dsimp only
    rw [if_neg (by omega), he]
    dsimp only
    rw [if_pos (by omega)]
  refine ⟨_, hins, ?_, ?_⟩
  · rw [count_update_count]
    omega
  · rw [liveList_update_count, mapData_data, mapData_data]
    rw [inserts_shift_copy (by omega) hsl (by omega)]
    rw [hcnt, hpre]
    rfl

/-- Claim C5, witness: on `[1, 2, 3]`, `InsertMany(1, [8, 9], 2)` yields
`[1, 8, 9, 2, 3]` with count 5 and returns 2. -/
theorem C5_witness :
    ∃ v1 : CVec,
      mc_vector_inserts true (some vec123) 1 (some [8, 9]) 2 =
        ((2 : Int), none, some v1) ∧
        v1.count = vec123.count + 2 ∧
        v1.liveList = vec123.liveList.take 1 ++ [8, 9].take 2 ++ vec123.liveList.drop 1 :=
  C5_amended (by decide) (by decide) (by decide) (by decide) (by decide) (by decide)
    (by decide)

/-- Claim C8, amended: with a successful allocator, `Resize(newSize)` for
`newSize ≤ MC_VECTOR_BUFSIZE` activates the inline buffer carrying the
first `newSize` cells of the previously active buffer, sets
`capacity = MC_VECTOR_BUFSIZE` and forces `count = newSize` even beyond the
previous count; for `newSize > MC_VECTOR_BUFSIZE` it sets the capacity to
exactly `newSize` and leaves the count untouched, but — as the
counterexample shows — preserves only the first `min(count, newSize)` live
elements: when `newSize < count` the elements beyond `newSize` are lost and
`count` exceeds `capacity`.  (`hh` states that a heap-backed vector has
capacity above the inline floor, true of every state the API reaches.) -/
theorem C8_amended {v : CVec} {newSize : Nat}
    (hwf : WF v) (hc : v.count ≤ v.capacity) (h0 : 0 < newSize)
    (hh : v.dataIsHeap = true → MC_VECTOR_BUFSIZE ≤ v.capacity) :
    (newSize ≤ MC_VECTOR_BUFSIZE →
      ∃ v1 : CVec, mc_vector_resize true (some v) newSize = (1, none, some v1) ∧
        v1.dataIsHeap = false ∧ v1.capacity = MC_VECTOR_BUFSIZE ∧
        v1.count = newSize ∧ v1.data.take newSize = v.data.take newSize) ∧
      (MC_VECTOR_BUFSIZE < newSize →
        ∃ v1 : CVec, mc_vector_resize true (some v) newSize = (1, none, some v1) ∧
          v1.dataIsHeap = true ∧ v1.capacity = newSize ∧ v1.count = v.count ∧
          v1.data.take (min v.count newSize) =
            v.data.take (min v.count newSize)) := by
  obtain ⟨hstack, hrest⟩ := hwf
  constructor
  · intro hle
    unfold mc_vector_resize
    dsimp only
    rw [if_neg (by omega), if_pos hle]
    cases hih : v.dataIsHeap
    · rw [if_neg (by simp [hih])]
      refine ⟨_, rfl, rfl, rfl, rfl, ?_⟩
      show v.stack_buf.take newSize = v.data.take newSize
      rw [CVec.data, if_neg (by simp [hih])]
    · rw [if_pos rfl]
      rw [if_pos hih] at hrest
      obtain ⟨hlen, -⟩ := hrest
      refine ⟨_, rfl, rfl, rfl, rfl, ?_⟩
      show (memcopy v.stack_buf 0 (v.heap_buf.getD []) 0 newSize).take newSize =
        v.data.take newSize
      rw [memcopy_take_all (by rw [hstack]; omega)
        (by rw [Nat.zero_add, hlen]; exact le_trans hle (hh hih))]
      rw [List.drop_zero, CVec.data, if_pos hih]
  · intro hgt
    unfold mc_vector_resize
    dsimp only
    rw [if_neg (by omega), if_neg (by omega)]
    cases hih : v.dataIsHeap
    · rw [if_neg (by simp [hih]), if_pos rfl]
      rw [if_neg (by simp [hih])] at hrest
      obtain ⟨hcap10, -⟩ := hrest
      refine ⟨_, rfl, rfl, rfl, rfl, ?_⟩
      have hm : min v.count newSize = v.count := by omega
      rw [hm]
      show (memcopy (List.replicate newSize 0) 0 v.stack_buf 0 v.count).take v.count =
        v.data.take v.count
      rw [memcopy_take_all (by rw [List.length_replicate]; omega)
        (by rw [Nat.zero_add, hstack]; omega)]
      rw [List.drop_zero, CVec.data, if_neg (by simp [hih])]
    · rw [if_pos rfl, if_pos rfl]
      rw [if_pos hih] at hrest
      obtain ⟨hlen, -⟩ := hrest
      refine ⟨_, rfl, rfl, rfl, rfl, ?_⟩
      show (((v.heap_buf.getD []).take newSize ++
          List.replicate (newSize - (v.heap_buf.getD []).length) 0).take
            (min v.count newSize)) = v.data.take (min v.count newSize)
      rw [List.take_append_eq_append_take, List.take_take, List.length_take]
      rw [show min (min v.count newSize) newSize = min v.count newSize from by omega]
      rw [show min v.count newSize - min newSize (v.heap_buf.getD []).length = 0
        from by rw [hlen]; omega]
      rw [List.take_zero, List.append_nil, CVec.data, if_pos hih]

/-- Claim C8, witness: on the inline vector `[1, 2, 3]` the shrink branch
(`Resize(7)`) forces count 7 on the inline buffer, and the grow branch
(`Resize(15)`) allocates exactly 15 cells preserving the three live
elements with the count untouched. -/
theorem C8_witness :
    ((7 ≤ MC_VECTOR_BUFSIZE →
      ∃ v1 : CVec, mc_vector_resize true (some vec123) 7 = (1, none, some v1) ∧
        v1.dataIsHeap = false ∧ v1.capacity = MC_VECTOR_BUFSIZE ∧
        v1.count = 7 ∧ v1.data.take 7 = vec123.data.take 7) ∧
      (MC_VECTOR_BUFSIZE < 7 →
        ∃ v1 : CVec, mc_vector_resize true (some vec123) 7 = (1, none, some v1) ∧
          v1.dataIsHeap = true ∧ v1.capacity = 7 ∧ v1.count = vec123.count ∧
          v1.data.take (min vec123.count 7) =
            vec123.data.take (min vec123.count 7))) ∧
      ((15 ≤ MC_VECTOR_BUFSIZE →
        ∃ v1 : CVec, mc_vector_resize true (some vec123) 15 = (1, none, some v1) ∧
          v1.dataIsHeap = false ∧ v1.capacity = MC_VECTOR_BUFSIZE ∧
          v1.count = 15 ∧ v1.data.take 15 = vec123.data.take 15) ∧
        (MC_VECTOR_BUFSIZE < 15 →
          ∃ v1 : CVec, mc_vector_resize true (some vec123) 15 = (1, none, some v1) ∧
            v1.dataIsHeap = true ∧ v1.capacity = 15 ∧ v1.count = vec123.count ∧
            v1.data.take (min vec123.count 15) =
              vec123.data.take (min vec123.count 15))) :=
  ⟨C8_amended (by decide) (by decide) (by decide) (by decide),
   C8_amended (by decide) (by decide) (by decide) (by decide)⟩

/-- A successful push leaves strict headroom: `count < capacity`. -/
theorem push_success_lt {ok : Bool} {v v1 : CVec} {value r : Int}
    (hwf : WF v) (hc : v.count ≤ v.capacity) (hcap : 0 < v.capacity)
    (he : mc_vector_push ok (some v) value = (r, none, some v1)) :
    v1.count < v1.capacity := by
  unfold mc_vector_push at he
  dsimp only at he
  rcases hens : vec_ensure_capacity ok v 1 with ⟨b, w⟩
  rw [hens] at he
  cases b
  · simp at he
  · dsimp only at he
    obtain ⟨hwf2, hcnt, hcapm, hroom, hpre⟩ := ensure_success hens hwf hc hcap
    simp only [Prod.mk.injEq, Option.some.injEq] at he
    obtain ⟨-, -, hv1⟩ := he
    subst hv1
    dsimp only
    rw [mapData_capacity]
    omega

/-- A successful single-element insert leaves strict headroom. -/
theorem insert_success_lt {ok : Bool} {v v1 : CVec} {index : Nat} {value r : Int}
    (hwf : WF v) (hc : v.count ≤ v.capacity) (hcap : 0 < v.capacity)
    (he : mc_vector_insert ok (some v) index value = (r, none, some v1)) :
    v1.count < v1.capacity := by
  unfold mc_vector_insert at he
  dsimp only at he
  by_cases hidx : index ≥ v.count
  · rw [if_pos hidx] at he
    simp at he
  · rw [if_neg hidx] at he
    rcases hens : vec_ensure_capacity ok v 1 with ⟨b, w⟩
    rw [hens] at he
    cases b
    · simp at he
    · dsimp only at he
      obtain ⟨hwf2, hcnt, hcapm, hroom, hpre⟩ := ensure_success hens hwf hc hcap
      by_cases hlast : index = w.count - 1
      · rw [if_pos hlast] at he
        exact push_success_lt hwf2 (by omega) (by omega) he
      · rw [if_neg hlast] at he
        simp only [Prod.mk.injEq, Option.some.injEq] at he
        obtain ⟨-, -, hv1⟩ := he
        subst hv1
        dsimp only
        rw [mapData_capacity]
        omega

/-- A successful bulk insert leaves strict headroom. -/
theorem inserts_success_lt {ok : Bool} {v v1 : CVec} {index : Nat} {s : List Int}
    {length : Nat} {r : Int}
    (hwf : WF v) (hc : v.count ≤ v.capacity) (hcap : 0 < v.capacity)
    (he : mc_vector_inserts ok (some v) index (some s) length = (r, none, some v1)) :
    v1.count < v1.capacity := by
  unfold mc_vector_inserts at he
  dsimp only at he
  by_cases hcnd : index ≥ v.capacity ∨ length = 0 ∨ index + length ≥ v.capacity
  · rw [if_pos hcnd] at he
    simp at he
  · rw [if_neg hcnd] at he
    rcases hens : vec_ensure_capacity ok v length with ⟨b, w⟩
    rw [hens] at he
    cases b
    · simp at he
    · dsimp only at he
      obtain ⟨hwf2, hcnt, hcapm, hroom, hpre⟩ := ensure_success hens hwf hc hcap
      simp only [Prod.mk.injEq, Option.some.injEq] at he
      obtain ⟨-, -, hv1⟩ := he
      subst hv1
      dsimp only
      rw [mapData_capacity]
      split
      · rw [mapData_capacity]
        omega
      · omega

/-- Claim C9, amended: after every successful Push, Insert or InsertMany
on a well-formed container, `count` is strictly less than `capacity` —
growth triggers already when the new count would merely equal the current
capacity, so these operations never leave the active buffer completely
full.  The claim's parenthetical is corrected by the counterexample:
`count = capacity` is reachable not only through the filled constructor and
Resize's shrink branch but also through Resize's grow branch (e.g.
`Resize(count)` — a Shrink — on a heap-backed container). -/
theorem C9_amended :
    (∀ (ok : Bool) (v v1 : CVec) (value r : Int),
      WF v → v.count ≤ v.capacity → 0 < v.capacity →
      mc_vector_push ok (some v) value = (r, none, some v1) →
      v1.count < v1.capacity) ∧
      (∀ (ok : Bool) (v v1 : CVec) (index : Nat) (value r : Int),
        WF v → v.count ≤ v.capacity → 0 < v.capacity →
        mc_vector_insert ok (some v) index value = (r, none, some v1) →
        v1.count < v1.capacity) ∧
      (∀ (ok : Bool) (v v1 : CVec) (index : Nat) (s : List Int) (length : Nat)
        (r : Int),
        WF v → v.count ≤ v.capacity → 0 < v.capacity →
        mc_vector_inserts ok (some v) index (some s) length = (r, none, some v1) →
        v1.count < v1.capacity) :=
  ⟨fun _ _ _ _ _ hwf hc hcap he => push_success_lt hwf hc hcap he,
   fun _ _ _ _ _ _ hwf hc hcap he => insert_success_lt hwf hc hcap he,
   fun _ _ _ _ _ _ _ hwf hc hcap he => inserts_success_lt hwf hc hcap he⟩

/-- Claim C9, witness: pushing 9 onto `[1, 2, 3]` succeeds and leaves
`count = 4 < 10 = capacity`. -/
theorem C9_witness :
    mc_vector_push true (some vec123) 9 = (1, none,
      some (⟨4, 10, [1, 2, 3, 9, 0, 0, 0, 0, 0, 0], none, false⟩ : CVec)) ∧
      (⟨4, 10, [1, 2, 3, 9, 0, 0, 0, 0, 0, 0], none, false⟩ : CVec).count <
        (⟨4, 10, [1, 2, 3, 9, 0, 0, 0, 0, 0, 0], none, false⟩ : CVec).capacity :=
  ⟨by decide,
   C9_amended.1 true vec123 ⟨4, 10, [1, 2, 3, 9, 0, 0, 0, 0, 0, 0], none, false⟩ 9 1
     (by decide) (by decide) (by decide) (by decide)⟩

end MVec
